import Mathlib

/-!
Verification of the Branka token codec (src/lib.rs): wire layout, decode
validation gates, expiry policy, and the Radix-62 transcoding layer.

Bytes are modelled as natural numbers (with explicit `< 256` bounds where
they matter), u32 arithmetic as `Nat` with explicit `% 2^32`, fallible
operations as `Option`/`Except`, and the external XChaCha20-Poly1305
primitive as an abstract `AEADScheme` whose cryptographic contracts appear
as explicit hypotheses.  System time and the RNG are nondeterministic
inputs of the Rust code, so the corresponding values (`timestamp`, `now`,
`nonce`) are explicit parameters here.
-/

set_option maxRecDepth 8000

/-- The Base62 alphabet constant of src/lib.rs (`const BASE62: &str = ...`). -/
def BASE62 : String := "0123456789ABCDEFGHIJKLMNOPQRSTUVWXYZabcdefghijklmnopqrstuvwxyz"

/-- The Branka magic byte of src/lib.rs (`const VERSION: u8 = 0xBA`). -/
def VERSION : Nat := 186

/-- Digit value `d` rendered as a character of the alphabet. -/
def digitChar (d : Nat) : Char := BASE62.data.getD d ' '

/-- A character mapped back to its digit value: the index of its first
occurrence in the alphabet, `none` for characters outside the alphabet. -/
def charDigit? (c : Char) : Option Nat := BASE62.data.findIdx? (fun a => a == c)

/-- Value of a big-endian digit string in base `b`. -/
def ofBase (b : Nat) (ds : List Nat) : Nat := ds.foldl (fun acc d => acc * b + d) 0

/-- Fuel-driven core of `toBase`; the fuel only bounds the recursion depth. -/
def toBaseGo (b : Nat) : Nat → Nat → List Nat
  | 0, _ => []
  | _ + 1, 0 => []
  | fuel + 1, n + 1 => toBaseGo b fuel ((n + 1) / b) ++ [(n + 1) % b]

/-- Big-endian base-`b` digits of `n`, with no leading zero digit (`[]` for 0). -/
def toBase (b n : Nat) : List Nat := toBaseGo b n n

/-- Number of leading zero entries of a list. -/
def leadZeros : List Nat → Nat
  | [] => 0
  | d :: t => if d = 0 then leadZeros t + 1 else 0

/-- Modelled from the spec: the Radix-62 encoder of the external `base_x`
crate (spec §4.5): the byte sequence is read as a big, unsigned, big-endian
integer and converted to base-62 digits, and every leading zero byte is
preserved as a leading zero digit. -/
def bytesToDigits (bs : List Nat) : List Nat :=
  List.replicate (leadZeros bs) 0 ++ toBase 62 (ofBase 256 bs)

/-- Modelled from the spec: `base_x::encode(BASE62, bytes)` (spec §4.5). -/
def base62encodeStr (bs : List Nat) : String :=
  String.mk ((bytesToDigits bs).map digitChar)

/-- Character-wise digit lookup; fails on the first character outside the
alphabet. -/
def charsToDigits : List Char → Option (List Nat)
  | [] => some []
  | c :: cs =>
    match charDigit? c, charsToDigits cs with
    | some d, some ds => some (d :: ds)
    | _, _ => none

/-- Modelled from the spec: the digit string is accumulated back into an
integer and re-serialised as big-endian bytes, leading zero digits becoming
leading zero bytes (spec §4.5). -/
def digitsToBytes (ds : List Nat) : List Nat :=
  List.replicate (leadZeros ds) 0 ++ toBase 256 (ofBase 62 ds)

/-- Modelled from the spec: `base_x::decode(BASE62, s)` (spec §4.5);
malformed characters outside the alphabet fail the decode. -/
def base62decodeStr (s : String) : Option (List Nat) :=
  (charsToDigits s.data).map digitsToBytes

/-- The external AEAD primitive (XChaCha20-Poly1305) as an abstract scheme:
`enc key nonce ad plaintext = (ciphertext, tag)` models
`encrypt_in_place_detached`, and `dec key nonce ad ciphertext tag` models
`decrypt_in_place_detached`, returning `none` on tag verification failure. -/
structure AEADScheme where
  enc : List Nat → List Nat → List Nat → List Nat → List Nat × List Nat
  dec : List Nat → List Nat → List Nat → List Nat → List Nat → Option (List Nat)

/-- The `Branka` struct of src/lib.rs: it owns the key material (the Rust
struct stores the derived cipher, which is a function of the key) and the
decode-time ttl. -/
structure Branka where
  key : List Nat
  ttl : Nat

/-- The `BrankaError` enum of src/lib.rs. -/
inductive BrankaError where
  | InvalidBase62
  | InvalidDataLength
  | InvalidVersion
  | InvalidData
  | Expired
deriving DecidableEq

instance : DecidableEq (Except BrankaError (List Nat)) := fun a b =>
  match a, b with
  | .ok x, .ok y =>
    if h : x = y then .isTrue (by rw [h])
    else .isFalse (fun hh => by cases hh; exact h rfl)
  | .ok _, .error _ => .isFalse (fun hh => by cases hh)
  | .error _, .ok _ => .isFalse (fun hh => by cases hh)
  | .error e, .error f =>
    if h : e = f then .isTrue (by rw [h])
    else .isFalse (fun hh => by cases hh; exact h rfl)

/-- `Branka::new` of src/lib.rs: `Key::from_slice` accepts exactly 32-byte
keys (it aborts construction otherwise), so construction is modelled as
failing unless the key length is 32. -/
def Branka.new (key : List Nat) (ttl : Nat) : Option Branka :=
  if key.length = 32 then some { key := key, ttl := ttl } else none

/-- `byteorder::BigEndian::write_u32`: the four big-endian bytes of a u32. -/
def be32 (n : Nat) : List Nat :=
  [n / 16777216 % 256, n / 65536 % 256, n / 256 % 256, n % 256]

/-- `get_timestamp` of src/lib.rs: system seconds truncated `as u32`. -/
def get_timestamp (secs : Nat) : Nat := secs % 4294967296

/-- `BigEndian::read_u32(&buf_crypt[1..5])`: the embedded timestamp. -/
def readTs (buf : List Nat) : Nat := ofBase 256 ((buf.drop 1).take 4)

/-- The binary blob assembled by `Branka::encode_bytes` before transcoding:
`Version || Timestamp || Nonce` (29 bytes), then the ciphertext produced in
place over the payload with the header as associated data, then the tag. -/
def Branka.encodeBlob (S : AEADScheme) (b : Branka) (timestamp : Nat)
    (nonce : List Nat) (data : List Nat) : List Nat :=
  let header := VERSION :: (be32 timestamp ++ nonce)
  let c := S.enc b.key nonce header data
  header ++ c.1 ++ c.2

/-- `Branka::encode_bytes` of src/lib.rs; the fresh nonce drawn from `OsRng`
and the `get_timestamp()` result are explicit parameters. -/
def Branka.encode_bytes (S : AEADScheme) (b : Branka) (timestamp : Nat)
    (nonce : List Nat) (data : List Nat) : String :=
  base62encodeStr (Branka.encodeBlob S b timestamp nonce data)

/-- `Branka::decode_bytes` of src/lib.rs; `now` is the seconds value read by
the `get_timestamp()` call inside decode.  The expiry comparison
`timestamp > get_timestamp() + self.ttl` is a u32 sum, hence the explicit
`% 2^32` wrap. -/
def Branka.decode_bytes (S : AEADScheme) (b : Branka) (now : Nat)
    (data : String) : Except BrankaError (List Nat) :=
  match base62decodeStr data with
  | none => Except.error BrankaError.InvalidBase62
  | some buf =>
    if buf.length < 29 + 16 then Except.error BrankaError.InvalidDataLength
    else if buf.getD 0 0 ≠ VERSION then Except.error BrankaError.InvalidVersion
    else
      match S.dec b.key ((buf.drop 5).take 24) (buf.take 29)
          ((buf.drop 29).take (buf.length - 29 - 16))
          (buf.drop (buf.length - 16)) with
      | none => Except.error BrankaError.InvalidData
      | some pt =>
        if readTs buf > (get_timestamp now + b.ttl) % 4294967296 then
          Except.error BrankaError.Expired
        else Except.ok pt

/-- Result of a structured decode in a model that distinguishes a Rust
panic (an `unwrap` of a failed internal operation) from a returned error. -/
inductive DecodeOutcome (T : Type) where
  | ok (t : T)
  | err (e : BrankaError)
  | crash
deriving DecidableEq

/-- `Branka::decode_struct` of src/lib.rs; `readT` models
`speedy::Readable::read_from_buffer`, whose failure is mapped to
`InvalidData`. -/
def Branka.decode_struct {T : Type} (S : AEADScheme)
    (readT : List Nat → Option T) (b : Branka) (now : Nat) (s : String) :
    DecodeOutcome T :=
  match Branka.decode_bytes S b now s with
  | .error e => .err e
  | .ok buf =>
    match readT buf with
    | none => .err BrankaError.InvalidData
    | some t => .ok t

/-- `Branka::decode_gz_struct` of src/lib.rs; `gunzip` models the flate2
`GzDecoder` read, which the source unwraps (`read_to_end(..).unwrap()`), so
its failure is a panic (`crash`), while a deserialization failure is mapped
to `InvalidData`. -/
def Branka.decode_gz_struct {T : Type} (S : AEADScheme)
    (gunzip : List Nat → Option (List Nat)) (readT : List Nat → Option T)
    (b : Branka) (now : Nat) (s : String) : DecodeOutcome T :=
  match Branka.decode_bytes S b now s with
  | .error e => .err e
  | .ok decoded =>
    match gunzip decoded with
    | none => .crash
    | some buf =>
      match readT buf with
      | none => .err BrankaError.InvalidData
      | some t => .ok t

/-- `Branka::decode_zlib_struct` of src/lib.rs; same shape as the gzip
variant with the zlib decompressor, whose read is likewise unwrapped. -/
def Branka.decode_zlib_struct {T : Type} (S : AEADScheme)
    (unzlib : List Nat → Option (List Nat)) (readT : List Nat → Option T)
    (b : Branka) (now : Nat) (s : String) : DecodeOutcome T :=
  match Branka.decode_bytes S b now s with
  | .error e => .err e
  | .ok decoded =>
    match unzlib decoded with
    | none => .crash
    | some buf =>
      match readT buf with
      | none => .err BrankaError.InvalidData
      | some t => .ok t

/-! Concrete AEAD instances used by the witnesses.  `Tenc` is the identity
cipher with a constant 16-byte tag; `S7` additionally refuses to open
anything but one fixed honestly-produced quadruple, giving a decidable
instance of the ideal tamper-evidence contract. -/

/-- Identity-cipher scheme with a constant all-zero 16-byte tag. -/
def Tenc : AEADScheme where
  enc := fun _ _ _ p => (p, List.replicate 16 0)
  dec := fun _ _ _ c t => if t = List.replicate 16 0 then some c else none

def keyA : List Nat := List.replicate 32 1

def nonceA : List Nat := List.replicate 24 2

def nonceB : List Nat := List.replicate 24 4

def keyC : List Nat := List.replicate 32 1

def nonceC : List Nat := List.replicate 24 2

def dataC : List Nat := [9]

def tagC : List Nat := List.replicate 16 3

def headerC : List Nat := VERSION :: (be32 7 ++ nonceC)

/-- Exact-match scheme: identity cipher with tag `tagC`, whose `dec` opens
only the one quadruple produced by sealing `dataC` under `headerC`. -/
def S7 : AEADScheme where
  enc := fun _ _ _ p => (p, tagC)
  dec := fun k n a c t =>
    if k = keyC ∧ n = nonceC ∧ a = headerC ∧ c = dataC ∧ t = tagC then some dataC else none

def brankaC : Branka := { key := keyC, ttl := 1000 }

def brankaG : Branka := { key := keyA, ttl := 3000 }

/-! Base-conversion lemmas for the Radix-62 transcoder. -/

theorem toBaseGo_zero (b f : Nat) : toBaseGo b f 0 = [] := by
  cases f <;> rfl

theorem toBaseGo_fuel (b : Nat) (hb : 2 ≤ b) :
    ∀ f1 f2 n, n ≤ f1 → n ≤ f2 → toBaseGo b f1 n = toBaseGo b f2 n := by
  intro f1
  induction f1 with
  | zero =>
    intro f2 n h1 _
    have hn : n = 0 := Nat.le_zero.mp h1
    subst hn
    rw [toBaseGo_zero, toBaseGo_zero]
  | succ f ih =>
    intro f2 n h1 h2
    match n, f2 with
    | 0, f2 => rw [toBaseGo_zero, toBaseGo_zero]
    | m + 1, 0 => omega
    | m + 1, f2 + 1 =>
      show toBaseGo b f ((m + 1) / b) ++ [(m + 1) % b]
          = toBaseGo b f2 ((m + 1) / b) ++ [(m + 1) % b]
      congr 1
      have hlt : (m + 1) / b < m + 1 := Nat.div_lt_self (Nat.succ_pos m) (by omega)
      exact ih f2 ((m + 1) / b) (by omega) (by omega)

theorem toBase_zero (b : Nat) : toBase b 0 = [] := rfl

theorem toBase_eq (b n : Nat) (hb : 2 ≤ b) :
    toBase b n = if n = 0 then [] else toBase b (n / b) ++ [n % b] := by
  cases n with
  | zero => rfl
  | succ m =>
    rw [if_neg (Nat.succ_ne_zero m)]
    show toBaseGo b (m + 1) (m + 1) = toBase b ((m + 1) / b) ++ [(m + 1) % b]
    have step : toBaseGo b (m + 1) (m + 1)
        = toBaseGo b m ((m + 1) / b) ++ [(m + 1) % b] := rfl
    rw [step]
    congr 1
    have hlt : (m + 1) / b < m + 1 := Nat.div_lt_self (Nat.succ_pos m) (by omega)
    exact toBaseGo_fuel b hb m ((m + 1) / b) ((m + 1) / b) (by omega) le_rfl

theorem ofBase_nil (b : Nat) : ofBase b [] = 0 := rfl

theorem ofBase_append_singleton (b : Nat) (ds : List Nat) (d : Nat) :
    ofBase b (ds ++ [d]) = ofBase b ds * b + d := by
  simp [ofBase, List.foldl_append]

theorem ofBase_toBase (b : Nat) (hb : 2 ≤ b) : ∀ n, ofBase b (toBase b n) = n := by
  intro n
  induction n using Nat.strong_induction_on with
  | _ n ih =>
    rw [toBase_eq b n hb]
    by_cases h : n = 0
    · subst h; rfl
    · rw [if_neg h, ofBase_append_singleton,
        ih (n / b) (Nat.div_lt_self (Nat.pos_of_ne_zero h) (by omega))]
      rw [Nat.mul_comm]
      exact Nat.div_add_mod n b

theorem toBase_mem_lt (b : Nat) (hb : 2 ≤ b) : ∀ n, ∀ x ∈ toBase b n, x < b := by
  intro n
  induction n using Nat.strong_induction_on with
  | _ n ih =>
    intro x hx
    rw [toBase_eq b n hb] at hx
    by_cases h : n = 0
    · rw [if_pos h] at hx; cases hx
    · rw [if_neg h, List.mem_append] at hx
      rcases hx with hx | hx
      · exact ih (n / b) (Nat.div_lt_self (Nat.pos_of_ne_zero h) (by omega)) x hx
      · rw [List.mem_singleton] at hx
        subst hx
        exact Nat.mod_lt _ (by omega)

theorem toBase_head_ne (b : Nat) (hb : 2 ≤ b) :
    ∀ n, n ≠ 0 → ∃ d t, toBase b n = d :: t ∧ d ≠ 0 := by
  intro n
  induction n using Nat.strong_induction_on with
  | _ n ih =>
    intro hn
    rw [toBase_eq b n hb, if_neg hn]
    by_cases hq : n / b = 0
    · rw [hq, toBase_zero, List.nil_append]
      refine ⟨n % b, [], rfl, ?_⟩
      have hlt : n < b := (Nat.div_eq_zero_iff (by omega)).mp hq
      rw [Nat.mod_eq_of_lt hlt]
      exact hn
    · obtain ⟨d, t, hdt, hd⟩ :=
        ih (n / b) (Nat.div_lt_self (Nat.pos_of_ne_zero hn) (by omega)) hq
      exact ⟨d, t ++ [n % b], by rw [hdt]; rfl, hd⟩

theorem foldl_step_le (b : Nat) (hb : 1 ≤ b) :
    ∀ (l : List Nat) (a : Nat), a ≤ l.foldl (fun acc x => acc * b + x) a := by
  intro l
  induction l with
  | nil => intro a; exact le_rfl
  | cons x t ih =>
    intro a
    calc a ≤ a * b + x := by
          have : a ≤ a * b := Nat.le_mul_of_pos_right a (by omega)
          omega
      _ ≤ _ := ih (a * b + x)

theorem ofBase_cons_pos (b : Nat) (hb : 1 ≤ b) (d : Nat) (t : List Nat) (hd : d ≠ 0) :
    0 < ofBase b (d :: t) := by
  have h : d ≤ ofBase b (d :: t) := by
    have := foldl_step_le b hb t (0 * b + d)
    simpa [ofBase] using this
  omega

theorem toBase_ofBase (b : Nat) (hb : 2 ≤ b) :
    ∀ rest : List Nat, (rest = [] ∨ ∃ d t, rest = d :: t ∧ d ≠ 0) →
      (∀ x ∈ rest, x < b) → toBase b (ofBase b rest) = rest := by
  intro rest
  induction rest using List.reverseRecOn with
  | nil => intro _ _; rfl
  | append_singleton xs x ih =>
    intro hshape hbound
    rw [ofBase_append_singleton]
    have hx : x < b := hbound x (by simp)
    cases xs with
    | nil =>
      have hx0 : x ≠ 0 := by
        rcases hshape with h | ⟨d, t, hdt, hd⟩
        · simp at h
        · rw [List.nil_append] at hdt
          cases hdt
          exact hd
      rw [ofBase_nil, Nat.zero_mul, Nat.zero_add, toBase_eq b x hb, if_neg hx0,
        Nat.div_eq_of_lt hx, toBase_zero, Nat.mod_eq_of_lt hx]
    | cons d t =>
      have hd : d ≠ 0 := by
        rcases hshape with h | ⟨d2, t2, hdt, hd2⟩
        · simp at h
        · rw [List.cons_append] at hdt
          injection hdt with h1 _
          subst h1
          exact hd2
      have hpos : 0 < ofBase b (d :: t) := ofBase_cons_pos b (by omega) d t hd
      have hne : ofBase b (d :: t) * b + x ≠ 0 := by
        have : 0 < ofBase b (d :: t) * b := Nat.mul_pos hpos (by omega)
        omega
      rw [toBase_eq b _ hb, if_neg hne]
      have hdiv : (ofBase b (d :: t) * b + x) / b = ofBase b (d :: t) := by
        rw [Nat.mul_comm, Nat.mul_add_div (by omega), Nat.div_eq_of_lt hx, Nat.add_zero]
      have hmod : (ofBase b (d :: t) * b + x) % b = x := by
        rw [Nat.mul_comm, Nat.mul_add_mod]
        exact Nat.mod_eq_of_lt hx
      rw [hdiv, hmod]
      congr 1
      exact ih (Or.inr ⟨d, t, rfl, hd⟩) (fun y hy => hbound y (List.mem_append_left _ hy))

theorem ofBase_cons_zero (b : Nat) (w : List Nat) : ofBase b (0 :: w) = ofBase b w := by
  simp [ofBase]

theorem ofBase_replicate_zero (b k : Nat) (ds : List Nat) :
    ofBase b (List.replicate k 0 ++ ds) = ofBase b ds := by
  induction k with
  | zero => rfl
  | succ k ih =>
    rw [List.replicate_succ, List.cons_append, ofBase_cons_zero]
    exact ih

theorem leadZeros_cons_zero (t : List Nat) : leadZeros (0 :: t) = leadZeros t + 1 := by
  simp [leadZeros]

theorem leadZeros_cons_ne (d : Nat) (t : List Nat) (hd : d ≠ 0) :
    leadZeros (d :: t) = 0 := by
  simp [leadZeros, hd]

theorem leadZeros_replicate_append (k : Nat) (ds : List Nat) :
    leadZeros (List.replicate k 0 ++ ds) = k + leadZeros ds := by
  induction k with
  | zero => simp
  | succ k ih =>
    rw [List.replicate_succ, List.cons_append, leadZeros_cons_zero, ih]
    omega

theorem split_leadZeros : ∀ l : List Nat,
    l = List.replicate (leadZeros l) 0 ++ l.drop (leadZeros l) ∧
      (l.drop (leadZeros l) = [] ∨ ∃ d t, l.drop (leadZeros l) = d :: t ∧ d ≠ 0) := by
  intro l
  induction l with
  | nil => exact ⟨rfl, Or.inl rfl⟩
  | cons d t ih =>
    by_cases hd : d = 0
    · subst hd
      rw [leadZeros_cons_zero]
      constructor
      · rw [List.replicate_succ, List.cons_append, List.drop_succ_cons]
        exact congrArg (0 :: ·) ih.1
      · rw [List.drop_succ_cons]
        exact ih.2
    · rw [leadZeros_cons_ne d t hd]
      exact ⟨rfl, Or.inr ⟨d, t, rfl, hd⟩⟩

theorem charDigit?_digitChar : ∀ d, d < 62 → charDigit? (digitChar d) = some d := by decide

theorem charsToDigits_map_digitChar :
    ∀ ds : List Nat, (∀ d ∈ ds, d < 62) → charsToDigits (ds.map digitChar) = some ds := by
  intro ds
  induction ds with
  | nil => intro _; rfl
  | cons d t ih =>
    intro h
    have h1 := charDigit?_digitChar d (h d (List.mem_cons_self d t))
    have h2 := ih (fun x hx => h x (List.mem_cons_of_mem d hx))
    simp [charsToDigits, h1, h2]

theorem charsToDigits_none :
    ∀ l : List Char, (∃ c ∈ l, charDigit? c = none) → charsToDigits l = none := by
  intro l
  induction l with
  | nil => rintro ⟨c, hc, _⟩; cases hc
  | cons c cs ih =>
    rintro ⟨d, hd, hnone⟩
    rcases List.mem_cons.mp hd with rfl | hmem
    · simp [charsToDigits, hnone]
    · have h2 := ih ⟨d, hmem, hnone⟩
      cases h1 : charDigit? c <;> simp [charsToDigits, h1, h2]

theorem bytesToDigits_lt (bs : List Nat) : ∀ d ∈ bytesToDigits bs, d < 62 := by
  intro d hd
  rw [bytesToDigits, List.mem_append] at hd
  rcases hd with hd | hd
  · rw [List.mem_replicate] at hd
    omega
  · exact toBase_mem_lt 62 (by omega) _ d hd

theorem base62_roundtrip (bs : List Nat) (hbytes : ∀ x ∈ bs, x < 256) :
    base62decodeStr (base62encodeStr bs) = some bs := by
  obtain ⟨hsplit, hshape⟩ := split_leadZeros bs
  rw [base62encodeStr, base62decodeStr]
  rw [show (String.mk ((bytesToDigits bs).map digitChar)).data
      = (bytesToDigits bs).map digitChar from rfl]
  rw [charsToDigits_map_digitChar _ (bytesToDigits_lt bs)]
  rw [Option.map_some']
  congr 1
  rw [digitsToBytes, bytesToDigits]
  have hlz : leadZeros (List.replicate (leadZeros bs) 0 ++ toBase 62 (ofBase 256 bs))
      = leadZeros bs := by
    rw [leadZeros_replicate_append]
    by_cases hN0 : ofBase 256 bs = 0
    · rw [hN0, toBase_zero]
      rfl
    · obtain ⟨d, t, hdt, hd⟩ := toBase_head_ne 62 (by omega) _ hN0
      rw [hdt, leadZeros_cons_ne d t hd]
      rfl
  have hval : ofBase 62 (List.replicate (leadZeros bs) 0 ++ toBase 62 (ofBase 256 bs))
      = ofBase 256 bs := by
    rw [ofBase_replicate_zero, ofBase_toBase 62 (by omega)]
  rw [hlz, hval]
  have hrest : ofBase 256 bs = ofBase 256 (bs.drop (leadZeros bs)) := by
    conv_lhs => rw [hsplit]
    rw [ofBase_replicate_zero]
  rw [hrest, toBase_ofBase 256 (by omega) _ hshape
    (fun x hx => hbytes x (List.drop_subset _ _ hx))]
  exact hsplit.symm

theorem digitChar_mem (d : Nat) (hd : d < 62) : digitChar d ∈ BASE62.data := by
  have hlen : BASE62.data.length = 62 := by decide
  rw [digitChar, List.getD_eq_getElem _ _ (by rw [hlen]; exact hd)]
  exact List.getElem_mem _

theorem base62encodeStr_chars (bs : List Nat) :
    ∀ c ∈ (base62encodeStr bs).data, c ∈ BASE62.data := by
  intro c hc
  rw [show (base62encodeStr bs).data = (bytesToDigits bs).map digitChar from rfl] at hc
  rw [List.mem_map] at hc
  obtain ⟨d, hd, rfl⟩ := hc
  exact digitChar_mem d (bytesToDigits_lt bs d hd)

/-! Codec-level helper lemmas. -/

theorem be32_length (n : Nat) : (be32 n).length = 4 := rfl

theorem be32_mem_lt (n : Nat) : ∀ x ∈ be32 n, x < 256 := by
  intro x hx
  simp only [be32, List.mem_cons, List.mem_singleton] at hx
  rcases hx with rfl | rfl | rfl | rfl | h
  · exact Nat.mod_lt _ (by omega)
  · exact Nat.mod_lt _ (by omega)
  · exact Nat.mod_lt _ (by omega)
  · exact Nat.mod_lt _ (by omega)
  · cases h

theorem ofBase_be32 (n : Nat) : ofBase 256 (be32 n) = n % 4294967296 := by
  simp only [ofBase, be32, List.foldl_cons, List.foldl_nil]
  omega

theorem encodeBlob_eq (S : AEADScheme) (b : Branka) (ts : Nat)
    (nonce data ct tag : List Nat)
    (hc : S.enc b.key nonce (VERSION :: (be32 ts ++ nonce)) data = (ct, tag)) :
    Branka.encodeBlob S b ts nonce data
      = (VERSION :: (be32 ts ++ nonce)) ++ ct ++ tag := by
  rw [Branka.encodeBlob]
  rw [hc]

theorem header_length (ts : Nat) (nonce : List Nat) (hnl : nonce.length = 24) :
    (VERSION :: (be32 ts ++ nonce)).length = 29 := by
  simp [be32, hnl]

theorem decode_bytes_unfold (S : AEADScheme) (b : Branka) (now : Nat) (s : String)
    (buf : List Nat) (hbuf : base62decodeStr s = some buf)
    (hlen : 45 ≤ buf.length) (hver : buf.getD 0 0 = VERSION) :
    Branka.decode_bytes S b now s =
      match S.dec b.key ((buf.drop 5).take 24) (buf.take 29)
          ((buf.drop 29).take (buf.length - 29 - 16))
          (buf.drop (buf.length - 16)) with
      | none => Except.error BrankaError.InvalidData
      | some pt =>
        if readTs buf > (get_timestamp now + b.ttl) % 4294967296 then
          Except.error BrankaError.Expired
        else Except.ok pt := by
  have h1 : ¬ buf.length < 29 + 16 := by omega
  have h2 : ¬ buf.getD 0 0 ≠ VERSION := fun h => h hver
  rw [Branka.decode_bytes, hbuf]
  simp only [h1, h2, if_false, ite_false]

/-- C1: Round trip.  For every payload (any length, including empty),
decoding the token produced by encoding it with the same key succeeds and
returns exactly the original payload bytes, provided the AEAD primitive
satisfies its correctness and length contracts at this encryption and the
decode-time clock passes the expiry gate (`timestamp ≤ now + ttl` as the
code computes it). -/
theorem decode_encode_roundtrip (S : AEADScheme) (b : Branka)
    (timestamp now : Nat) (nonce data ct tag : List Nat)
    (hc : S.enc b.key nonce (VERSION :: (be32 timestamp ++ nonce)) data = (ct, tag))
    (hnl : nonce.length = 24) (hnb : ∀ x ∈ nonce, x < 256)
    (hts : timestamp < 4294967296)
    (hctl : ct.length = data.length) (hctb : ∀ x ∈ ct, x < 256)
    (htl : tag.length = 16) (htb : ∀ x ∈ tag, x < 256)
    (hdec : S.dec b.key nonce (VERSION :: (be32 timestamp ++ nonce)) ct tag = some data)
    (hfresh : timestamp ≤ (get_timestamp now + b.ttl) % 4294967296) :
    Branka.decode_bytes S b now (Branka.encode_bytes S b timestamp nonce data)
      = Except.ok data := by
  set hdr := VERSION :: (be32 timestamp ++ nonce) with hhdr
  have hhl : hdr.length = 29 := header_length timestamp nonce hnl
  have hblob : Branka.encodeBlob S b timestamp nonce data = hdr ++ ct ++ tag :=
    encodeBlob_eq S b timestamp nonce data ct tag hc
  set blob := hdr ++ ct ++ tag with hblobdef
  have hblen : blob.length = data.length + 45 := by
    simp only [hblobdef, List.length_append, hhl, hctl, htl]
    omega
  have hbytes : ∀ x ∈ blob, x < 256 := by
    intro x hx
    simp only [hblobdef, hhdr, List.mem_append, List.mem_cons] at hx
    rcases hx with ((rfl | hx | hx) | hx) | hx
    · decide
    · exact be32_mem_lt timestamp x hx
    · exact hnb x hx
    · exact hctb x hx
    · exact htb x hx
  have hrt : base62decodeStr (base62encodeStr blob) = some blob :=
    base62_roundtrip blob hbytes
  have hver : blob.getD 0 0 = VERSION := by
    rw [hblobdef, hhdr]
    rfl
  have e2 : blob.take 29 = hdr := by
    rw [hblobdef, List.append_assoc]
    exact List.take_left' hhl
  have e1 : (blob.drop 5).take 24 = nonce := by
    have hassoc : blob = (VERSION :: be32 timestamp) ++ (nonce ++ (ct ++ tag)) := by
      simp [hblobdef, hhdr, List.append_assoc]
    rw [hassoc, List.drop_left' (by simp [be32])]
    exact List.take_left' hnl
  have e3 : (blob.drop 29).take (blob.length - 29 - 16) = ct := by
    have hd : blob.drop 29 = ct ++ tag := by
      rw [hblobdef, List.append_assoc]
      exact List.drop_left' hhl
    have hn : blob.length - 29 - 16 = ct.length := by omega
    rw [hd, hn]
    exact List.take_left' rfl
  have e4 : blob.drop (blob.length - 16) = tag := by
    have hn : (hdr ++ ct).length = blob.length - 16 := by
      simp only [hblobdef, List.length_append]
      omega
    rw [hblobdef]
    exact List.drop_left' hn
  have e5 : readTs blob = timestamp := by
    rw [readTs]
    have hassoc : blob.drop 1 = be32 timestamp ++ (nonce ++ (ct ++ tag)) := by
      simp [hblobdef, hhdr, List.append_assoc]
    rw [hassoc, List.take_left' (be32_length timestamp), ofBase_be32,
      Nat.mod_eq_of_lt hts]
  rw [Branka.encode_bytes, hblob]
  rw [decode_bytes_unfold S b now _ blob hrt (by omega) hver]
  rw [e1, e2, e3, e4, hdec]
  simp only [e5]
  rw [if_neg (by omega)]

/-- C1 witness: concrete instance with the identity scheme, an empty
payload, encode time 10 and decode time 12 under ttl 100. -/
theorem decode_encode_roundtrip_witness :
    Branka.decode_bytes Tenc { key := keyA, ttl := 100 } 12
      (Branka.encode_bytes Tenc { key := keyA, ttl := 100 } 10 nonceA [])
      = Except.ok [] :=
  decode_encode_roundtrip Tenc { key := keyA, ttl := 100 } 10 12 nonceA []
    [] (List.replicate 16 0) (by decide) (by decide) (by decide) (by decide)
    (by decide) (by decide) (by decide) (by decide) (by decide) (by decide)

/-- C2 (amended): for every token that passes the transcoding, length,
version and AEAD gates, decode returns `Expired` exactly when the embedded
timestamp exceeds the u32 wrapping sum `(now + ttl) % 2^32`, and returns
the authenticated payload otherwise; in particular a timestamp far in the
past (any value up to that bound) is never rejected as Expired. -/
theorem expiry_iff_wrapped (S : AEADScheme) (b : Branka) (now : Nat)
    (s : String) (buf pt : List Nat)
    (hnow : now < 4294967296) (httl : b.ttl < 4294967296)
    (hbuf : base62decodeStr s = some buf) (hlen : 45 ≤ buf.length)
    (hver : buf.getD 0 0 = VERSION)
    (hdec : S.dec b.key ((buf.drop 5).take 24) (buf.take 29)
        ((buf.drop 29).take (buf.length - 29 - 16))
        (buf.drop (buf.length - 16)) = some pt) :
    (Branka.decode_bytes S b now s = Except.error BrankaError.Expired
        ↔ (now + b.ttl) % 4294967296 < readTs buf)
    ∧ (readTs buf ≤ (now + b.ttl) % 4294967296
        → Branka.decode_bytes S b now s = Except.ok pt) := by
  rw [decode_bytes_unfold S b now s buf hbuf hlen hver, hdec]
  have hg : get_timestamp now = now := Nat.mod_eq_of_lt hnow
  simp only [hg]
  constructor
  · constructor
    · intro h
      by_contra hc
      rw [if_neg (by omega)] at h
      cases h
    · intro h
      rw [if_pos (by omega)]
  · intro h
    rw [if_neg (by omega)]

/-- C2 witness: boundary tokens under ttl 50 at decode time 100 — synthetic
timestamps `now` and `now + ttl` decode to the payload, `now + ttl + 1`
fails with `Expired`. -/
theorem expiry_iff_wrapped_witness :
    Branka.decode_bytes Tenc { key := keyA, ttl := 50 } 100
      (base62encodeStr (Branka.encodeBlob Tenc { key := keyA, ttl := 50 } 100 nonceA []))
      = Except.ok []
    ∧ Branka.decode_bytes Tenc { key := keyA, ttl := 50 } 100
      (base62encodeStr (Branka.encodeBlob Tenc { key := keyA, ttl := 50 } 150 nonceA []))
      = Except.ok []
    ∧ Branka.decode_bytes Tenc { key := keyA, ttl := 50 } 100
      (base62encodeStr (Branka.encodeBlob Tenc { key := keyA, ttl := 50 } 151 nonceA []))
      = Except.error BrankaError.Expired := by
  refine ⟨?_, ?_, ?_⟩
  · exact (expiry_iff_wrapped Tenc { key := keyA, ttl := 50 } 100 _
      (Branka.encodeBlob Tenc { key := keyA, ttl := 50 } 100 nonceA []) []
      (by decide) (by decide) (by decide) (by decide) (by decide) (by decide)).2
      (by decide)
  · exact (expiry_iff_wrapped Tenc { key := keyA, ttl := 50 } 100 _
      (Branka.encodeBlob Tenc { key := keyA, ttl := 50 } 150 nonceA []) []
      (by decide) (by decide) (by decide) (by decide) (by decide) (by decide)).2
      (by decide)
  · exact (expiry_iff_wrapped Tenc { key := keyA, ttl := 50 } 100 _
      (Branka.encodeBlob Tenc { key := keyA, ttl := 50 } 151 nonceA []) []
      (by decide) (by decide) (by decide) (by decide) (by decide) (by decide)).1.mpr
      (by decide)

/-- C2 counterexample: with ttl = u32::MAX and clock 5, a token that passes
every earlier gate and carries timestamp 5 is rejected as `Expired` even
though `timestamp > now + ttl` is false over the exact integers
(5 ≤ 5 + 4294967295), because the code computes `now + ttl` as a wrapping
u32 sum. -/
theorem expiry_exact_comparison_fails :
    Branka.decode_bytes Tenc { key := keyA, ttl := 4294967295 } 5
      (Branka.encode_bytes Tenc { key := keyA, ttl := 4294967295 } 5 nonceB [])
      = Except.error BrankaError.Expired
    ∧ 5 ≤ 5 + 4294967295 := by
  constructor
  · decide
  · decide

/-- C10: the expiry comparison is evaluated in u32 arithmetic — with
ttl = u32::MAX and current time 6, `now + ttl` wraps to 5 modulo 2^32, so a
freshly issued, untampered token (embedded timestamp 6 = now) is rejected
as `Expired`, although the exact-integer comparison `timestamp > now + ttl`
is false. -/
theorem expiry_u32_wraparound :
    Branka.decode_bytes Tenc { key := keyA, ttl := 4294967295 } 6
      (Branka.encode_bytes Tenc { key := keyA, ttl := 4294967295 } 6 nonceA [])
      = Except.error BrankaError.Expired
    ∧ ¬ (6 > 6 + 4294967295) := by
  constructor
  · decide
  · decide

/-- C3: the decode validation gates fire in a fixed fail-fast order with
typed errors and no partial result: a character outside the alphabet gives
`InvalidBase62`; then a blob shorter than 45 bytes gives
`InvalidDataLength`; then a wrong version byte gives `InvalidVersion` —
under any scheme, key and clock, i.e. before any cryptographic check; then
AEAD failure gives `InvalidData`; once authentication succeeds the result
is the payload or `Expired` only. -/
theorem decode_gate_order (S : AEADScheme) (b : Branka) (now : Nat) :
    (∀ s : String, (∃ c ∈ s.data, charDigit? c = none) →
      Branka.decode_bytes S b now s = Except.error BrankaError.InvalidBase62)
    ∧ (∀ s buf, base62decodeStr s = some buf → buf.length < 45 →
      Branka.decode_bytes S b now s = Except.error BrankaError.InvalidDataLength)
    ∧ (∀ s buf, base62decodeStr s = some buf → 45 ≤ buf.length →
      buf.getD 0 0 ≠ VERSION → ∀ (S2 : AEADScheme) (b2 : Branka) (now2 : Nat),
      Branka.decode_bytes S2 b2 now2 s = Except.error BrankaError.InvalidVersion)
    ∧ (∀ s buf, base62decodeStr s = some buf → 45 ≤ buf.length →
      buf.getD 0 0 = VERSION →
      S.dec b.key ((buf.drop 5).take 24) (buf.take 29)
        ((buf.drop 29).take (buf.length - 29 - 16))
        (buf.drop (buf.length - 16)) = none →
      Branka.decode_bytes S b now s = Except.error BrankaError.InvalidData)
    ∧ (∀ s buf pt, base62decodeStr s = some buf → 45 ≤ buf.length →
      buf.getD 0 0 = VERSION →
      S.dec b.key ((buf.drop 5).take 24) (buf.take 29)
        ((buf.drop 29).take (buf.length - 29 - 16))
        (buf.drop (buf.length - 16)) = some pt →
      Branka.decode_bytes S b now s = Except.ok pt
      ∨ Branka.decode_bytes S b now s = Except.error BrankaError.Expired) := by
  refine ⟨?_, ?_, ?_, ?_, ?_⟩
  · intro s hs
    have hnone : base62decodeStr s = none := by
      rw [base62decodeStr, charsToDigits_none s.data hs]
      rfl
    rw [Branka.decode_bytes, hnone]
  · intro s buf hb hlen
    have h1 : buf.length < 29 + 16 := by omega
    rw [Branka.decode_bytes, hb]
    simp only [h1, ite_true, if_true]
  · intro s buf hb hlen hver S2 b2 now2
    have h1 : ¬ buf.length < 29 + 16 := by omega
    rw [Branka.decode_bytes, hb]
    simp only [h1, ite_false, if_false]
    rw [if_pos hver]
  · intro s buf hb hlen hver hdec
    rw [decode_bytes_unfold S b now s buf hb hlen hver, hdec]
  · intro s buf pt hb hlen hver hdec
    rw [decode_bytes_unfold S b now s buf hb hlen hver, hdec]
    by_cases h : readTs buf > (get_timestamp now + b.ttl) % 4294967296
    · right
      simp only [h, ite_true, if_true]
    · left
      simp only [h, ite_false, if_false]

/-- C3 witness: one concrete token per gate — a non-alphabet character, a
too-short blob, a zeroed version byte, a forged tag, and a fully valid
token. -/
theorem decode_gate_order_witness :
    Branka.decode_bytes Tenc brankaG 7 "!" = Except.error BrankaError.InvalidBase62
    ∧ Branka.decode_bytes Tenc brankaG 7 "" = Except.error BrankaError.InvalidDataLength
    ∧ Branka.decode_bytes Tenc brankaG 7 (base62encodeStr (List.replicate 45 0))
      = Except.error BrankaError.InvalidVersion
    ∧ Branka.decode_bytes Tenc brankaG 7
      (base62encodeStr ((VERSION :: (be32 7 ++ nonceA)) ++ List.replicate 16 5))
      = Except.error BrankaError.InvalidData
    ∧ (Branka.decode_bytes Tenc brankaG 7
        (base62encodeStr (Branka.encodeBlob Tenc brankaG 7 nonceA [])) = Except.ok []
      ∨ Branka.decode_bytes Tenc brankaG 7
        (base62encodeStr (Branka.encodeBlob Tenc brankaG 7 nonceA []))
        = Except.error BrankaError.Expired) := by
  refine ⟨?_, ?_, ?_, ?_, ?_⟩
  · exact (decode_gate_order Tenc brankaG 7).1 "!" ⟨'!', by decide, by decide⟩
  · exact (decode_gate_order Tenc brankaG 7).2.1 "" [] (by decide) (by decide)
  · exact (decode_gate_order Tenc brankaG 7).2.2.1 _ (List.replicate 45 0)
      (by decide) (by decide) (by decide) Tenc brankaG 7
  · exact (decode_gate_order Tenc brankaG 7).2.2.2.1 _
      ((VERSION :: (be32 7 ++ nonceA)) ++ List.replicate 16 5)
      (by decide) (by decide) (by decide) (by decide)
  · exact (decode_gate_order Tenc brankaG 7).2.2.2.2 _
      (Branka.encodeBlob Tenc brankaG 7 nonceA []) []
      (by decide) (by decide) (by decide) (by decide)

/-- C4: the gzip structured decode path panics.  After a successful AEAD
open, `decode_gz_struct` unwraps the decompressor read
(`read_to_end(..).unwrap()`), so a payload that the gzip decompressor
rejects crashes the process instead of returning a decode error — here the
authenticated payload is the single byte 0, which is not a gzip stream. -/
theorem decode_gz_struct_crash (gz readT : List Nat → Option (List Nat))
    (hgz : gz [0] = none) :
    Branka.decode_gz_struct Tenc gz readT brankaG 7
      (Branka.encode_bytes Tenc brankaG 7 nonceA [0]) = DecodeOutcome.crash := by
  have h : Branka.decode_bytes Tenc brankaG 7
      (Branka.encode_bytes Tenc brankaG 7 nonceA [0]) = Except.ok [0] := by decide
  rw [Branka.decode_gz_struct, h]
  simp only [hgz]

/-- C4 witness: a decompressor that rejects the byte string `[0]` (as any
gzip decoder does) makes the gzip structured decode crash on this token. -/
theorem decode_gz_struct_crash_witness :
    Branka.decode_gz_struct Tenc (fun _ => (none : Option (List Nat)))
      (fun _ => (none : Option (List Nat))) brankaG 7
      (Branka.encode_bytes Tenc brankaG 7 nonceA [0]) = DecodeOutcome.crash :=
  decode_gz_struct_crash (fun _ => (none : Option (List Nat)))
    (fun _ => (none : Option (List Nat))) rfl

/-- C5: wire layout.  Under the AEAD length contracts (ciphertext length =
plaintext length, 16-byte tag) and a 24-byte nonce, the pre-transcoding
blob is exactly 29-byte header ∥ n-byte ciphertext ∥ 16-byte tag, total
n + 45; the first 29 bytes are the clear header `version ∥ BE32 timestamp
∥ nonce` for every scheme (never encrypted), the ciphertext is produced
with that header as associated data, and the token is the Radix-62
encoding of the blob. -/
theorem wire_layout (S : AEADScheme) (b : Branka) (ts : Nat)
    (nonce data ct tag : List Nat)
    (hc : S.enc b.key nonce (VERSION :: (be32 ts ++ nonce)) data = (ct, tag))
    (hnl : nonce.length = 24) (hctl : ct.length = data.length)
    (htl : tag.length = 16) :
    (Branka.encodeBlob S b ts nonce data).length = data.length + 45
    ∧ (Branka.encodeBlob S b ts nonce data).take 29 = VERSION :: (be32 ts ++ nonce)
    ∧ ((Branka.encodeBlob S b ts nonce data).drop 29).take data.length = ct
    ∧ (Branka.encodeBlob S b ts nonce data).drop (29 + data.length) = tag
    ∧ Branka.encode_bytes S b ts nonce data
      = base62encodeStr (Branka.encodeBlob S b ts nonce data)
    ∧ ∀ S2 : AEADScheme,
      (Branka.encodeBlob S2 b ts nonce data).take 29 = VERSION :: (be32 ts ++ nonce) := by
  have hhl : (VERSION :: (be32 ts ++ nonce)).length = 29 := header_length ts nonce hnl
  have hblob := encodeBlob_eq S b ts nonce data ct tag hc
  refine ⟨?_, ?_, ?_, ?_, rfl, ?_⟩
  · rw [hblob]
    simp only [List.length_append, hhl, hctl, htl]
    omega
  · rw [hblob, List.append_assoc]
    exact List.take_left' hhl
  · rw [hblob, List.append_assoc, List.drop_left' hhl, ← hctl]
    exact List.take_left' rfl
  · rw [hblob]
    have hn : ((VERSION :: (be32 ts ++ nonce)) ++ ct).length = 29 + data.length := by
      simp only [List.length_append, hhl, hctl]
    exact List.drop_left' hn
  · intro S2
    rw [encodeBlob_eq S2 b ts nonce data
        (S2.enc b.key nonce (VERSION :: (be32 ts ++ nonce)) data).1
        (S2.enc b.key nonce (VERSION :: (be32 ts ++ nonce)) data).2 rfl,
      List.append_assoc]
    exact List.take_left' hhl

/-- C5 witness: the identity scheme on payload `[7, 8]` — blob length 47,
clear 29-byte header, 2-byte ciphertext, 16-byte tag. -/
theorem wire_layout_witness :
    (Branka.encodeBlob Tenc { key := keyA, ttl := 100 } 10 nonceA [7, 8]).length = 47
    ∧ (Branka.encodeBlob Tenc { key := keyA, ttl := 100 } 10 nonceA [7, 8]).take 29
      = VERSION :: (be32 10 ++ nonceA)
    ∧ ((Branka.encodeBlob Tenc { key := keyA, ttl := 100 } 10 nonceA [7, 8]).drop 29).take 2
      = [7, 8]
    ∧ (Branka.encodeBlob Tenc { key := keyA, ttl := 100 } 10 nonceA [7, 8]).drop 31
      = List.replicate 16 0
    ∧ Branka.encode_bytes Tenc { key := keyA, ttl := 100 } 10 nonceA [7, 8]
      = base62encodeStr (Branka.encodeBlob Tenc { key := keyA, ttl := 100 } 10 nonceA [7, 8])
    ∧ ∀ S2 : AEADScheme,
      (Branka.encodeBlob S2 { key := keyA, ttl := 100 } 10 nonceA [7, 8]).take 29
        = VERSION :: (be32 10 ++ nonceA) :=
  wire_layout Tenc { key := keyA, ttl := 100 } 10 nonceA [7, 8] [7, 8]
    (List.replicate 16 0) (by decide) (by decide) (by decide) (by decide)

/-- C6: the Radix-62 transcoder is correct: the alphabet is the 62
characters of the source constant in order, with character `d` carrying
digit value `d`; decoding the encoding of any byte sequence (leading zero
bytes included) returns exactly the original bytes; and the encoder output
contains no character outside the alphabet. -/
theorem radix62_correct :
    BASE62.data.length = 62
    ∧ (∀ d, d < 62 → charDigit? (BASE62.data.getD d ' ') = some d)
    ∧ (∀ bs : List Nat, (∀ x ∈ bs, x < 256) →
      base62decodeStr (base62encodeStr bs) = some bs)
    ∧ (∀ bs : List Nat, ∀ c ∈ (base62encodeStr bs).data, c ∈ BASE62.data) :=
  ⟨by decide, charDigit?_digitChar, base62_roundtrip, base62encodeStr_chars⟩

/-- C6 witness: round trip through the transcoder on a byte string with two
leading zero bytes, and the digit value of the last alphabet character. -/
theorem radix62_correct_witness :
    base62decodeStr (base62encodeStr [0, 0, 255, 1]) = some [0, 0, 255, 1]
    ∧ charDigit? (BASE62.data.getD 61 ' ') = some 61 :=
  ⟨radix62_correct.2.2.1 [0, 0, 255, 1] (by decide),
    radix62_correct.2.1 61 (by decide)⟩

/-- C8: construction with a key whose length is not 32 bytes fails at
construction time, and construction with a 32-byte key always succeeds
(the length check lives in `Branka::new`, not in encode/decode). -/
theorem new_key_length (key : List Nat) (ttl : Nat) :
    ((Branka.new key ttl).isSome ↔ key.length = 32)
    ∧ (key.length ≠ 32 → Branka.new key ttl = none)
    ∧ (key.length = 32 → Branka.new key ttl = some { key := key, ttl := ttl }) := by
  rw [Branka.new]
  by_cases h : key.length = 32 <;> simp [h]

/-- C8 witness: a 32-byte key constructs, a 1-byte key is rejected. -/
theorem new_key_length_witness :
    Branka.new keyA 5 = some { key := keyA, ttl := 5 } ∧ Branka.new [0] 5 = none :=
  ⟨(new_key_length keyA 5).2.2 (by decide), (new_key_length [0] 5).2.1 (by decide)⟩

/-- C9: the ttl does not influence encoding — two codecs with the same key
and different ttl values produce the identical token for the same
timestamp, nonce and payload (the ttl is read only on the decode path). -/
theorem encode_ignores_ttl (S : AEADScheme) (key : List Nat)
    (t1 t2 ts : Nat) (nonce data : List Nat) :
    Branka.encode_bytes S { key := key, ttl := t1 } ts nonce data
      = Branka.encode_bytes S { key := key, ttl := t2 } ts nonce data := rfl

/-- C7 (amended): single-bit tamper sensitivity.  Take a valid token's
binary blob `u ++ x :: v` (byte `x` at position `j = u.length`) and flip
bit `k` of that byte.  Under the ideal tamper-evidence contract for this
encryption (the AEAD opens nothing but the quadruple it produced) and the
AEAD length contracts, decoding the re-encoded flipped blob fails with
`InvalidData` (AuthenticationFailed) whenever the flipped byte is not the
version byte, and with `InvalidVersion` when it is (`j = 0`) — never with a
silently corrupted payload. -/
theorem tamper_flip (S : AEADScheme) (b : Branka) (ts now : Nat)
    (nonce data ct tag u v : List Nat) (x j k : Nat)
    (hc : S.enc b.key nonce (VERSION :: (be32 ts ++ nonce)) data = (ct, tag))
    (hnl : nonce.length = 24) (hnb : ∀ y ∈ nonce, y < 256)
    (hctl : ct.length = data.length) (hctb : ∀ y ∈ ct, y < 256)
    (htl : tag.length = 16) (htb : ∀ y ∈ tag, y < 256)
    (htamper : ∀ n2 a2 c2 t2,
      ¬(n2 = nonce ∧ a2 = VERSION :: (be32 ts ++ nonce) ∧ c2 = ct ∧ t2 = tag) →
      S.dec b.key n2 a2 c2 t2 = none)
    (hsplit : Branka.encodeBlob S b ts nonce data = u ++ x :: v)
    (hj : u.length = j) (hk : k < 8) :
    (j = 0 → Branka.decode_bytes S b now (base62encodeStr (u ++ (x ^^^ 2 ^ k) :: v))
      = Except.error BrankaError.InvalidVersion)
    ∧ (1 ≤ j → Branka.decode_bytes S b now (base62encodeStr (u ++ (x ^^^ 2 ^ k) :: v))
      = Except.error BrankaError.InvalidData) := by
  set hdr := VERSION :: (be32 ts ++ nonce) with hhdr
  have hhl : hdr.length = 29 := header_length ts nonce hnl
  have heq : hdr ++ ct ++ tag = u ++ x :: v := by
    rw [← encodeBlob_eq S b ts nonce data ct tag hc]
    exact hsplit
  have hblen : (u ++ x :: v).length = data.length + 45 := by
    rw [← heq]
    simp only [List.length_append, hhl, hctl, htl]
    omega
  have hbytes : ∀ y ∈ hdr ++ ct ++ tag, y < 256 := by
    intro y hy
    simp only [hhdr, List.mem_append, List.mem_cons] at hy
    rcases hy with ((rfl | hy | hy) | hy) | hy
    · decide
    · exact be32_mem_lt ts y hy
    · exact hnb y hy
    · exact hctb y hy
    · exact htb y hy
  have hx256 : x < 256 := by
    apply hbytes
    rw [heq]
    exact List.mem_append_right u (List.mem_cons_self x v)
  have hf256 : x ^^^ 2 ^ k < 256 := by
    have h2 : (2 : Nat) ^ k < 2 ^ 8 := Nat.pow_lt_pow_right (by omega) hk
    exact Nat.xor_lt_two_pow (n := 8) hx256 h2
  have hne : x ^^^ 2 ^ k ≠ x := by
    intro h
    have h0 : x ^^^ 2 ^ k = x ^^^ 0 := by rw [Nat.xor_zero]; exact h
    have := Nat.xor_right_injective (n := x) h0
    have hp : 0 < 2 ^ k := Nat.pos_pow_of_pos k (by omega)
    omega
  have hfbytes : ∀ y ∈ u ++ (x ^^^ 2 ^ k) :: v, y < 256 := by
    intro y hy
    rcases List.mem_append.mp hy with hy | hy
    · exact hbytes y (by rw [heq]; exact List.mem_append_left _ hy)
    · rcases List.mem_cons.mp hy with rfl | hy
      · exact hf256
      · exact hbytes y
          (by rw [heq]; exact List.mem_append_right _ (List.mem_cons_of_mem x hy))
  have hflen : (u ++ (x ^^^ 2 ^ k) :: v).length = data.length + 45 := by
    rw [← hblen]
    simp [List.length_append]
  have hrtf : base62decodeStr (base62encodeStr (u ++ (x ^^^ 2 ^ k) :: v))
      = some (u ++ (x ^^^ 2 ^ k) :: v) := base62_roundtrip _ hfbytes
  have hfj : (u ++ (x ^^^ 2 ^ k) :: v)[j]? = some (x ^^^ 2 ^ k) := by
    rw [List.getElem?_append_right (by omega), show j - u.length = 0 by omega,
      List.getElem?_cons_zero]
  have hbj : (u ++ x :: v)[j]? = some x := by
    rw [List.getElem?_append_right (by omega), show j - u.length = 0 by omega,
      List.getElem?_cons_zero]
  have hb0 : (hdr ++ ct ++ tag)[0]? = some VERSION := by
    simp [hhdr]
  constructor
  · intro hj0
    subst hj0
    have hu : u = [] := List.length_eq_zero.mp hj
    subst hu
    have hxv : x = VERSION := by
      rw [heq] at hb0
      simp only [List.nil_append, List.getElem?_cons_zero] at hb0
      exact Option.some.inj hb0
    rw [Branka.decode_bytes, hrtf]
    have h1 : ¬ ([] ++ (x ^^^ 2 ^ k) :: v).length < 29 + 16 := by
      simp only [List.nil_append] at hflen ⊢
      omega
    have h2 : ([] ++ (x ^^^ 2 ^ k) :: v).getD 0 0 ≠ VERSION := by
      simp only [List.nil_append, List.getD_cons_zero]
      rw [← hxv]
      exact hne
    simp only [h1, ite_false, if_false]
    rw [if_pos h2]
  · intro hj1
    have hver_f : (u ++ (x ^^^ 2 ^ k) :: v).getD 0 0 = VERSION := by
      rw [heq] at hb0
      have hu0 : (u ++ x :: v)[0]? = u[0]? :=
        List.getElem?_append_left (by omega)
      have hf0 : (u ++ (x ^^^ 2 ^ k) :: v)[0]? = u[0]? :=
        List.getElem?_append_left (by omega)
      rw [List.getD_eq_getElem?_getD, hf0, ← hu0, hb0]
      rfl
    rw [decode_bytes_unfold S b now _ _ hrtf (by omega) hver_f]
    set w := u ++ (x ^^^ 2 ^ k) :: v with hw
    have hdecnone : S.dec b.key ((w.drop 5).take 24) (w.take 29)
        ((w.drop 29).take (w.length - 29 - 16)) (w.drop (w.length - 16)) = none := by
      apply htamper
      rintro ⟨-, ha2, hc2, ht2⟩
      have hjlt : j < data.length + 45 := by
        have hlt : j < (u ++ x :: v).length := by
          simp only [List.length_append, List.length_cons]
          omega
        omega
      rcases lt_or_ge j 29 with hA | hA
      · have hL : (w.take 29)[j]? = some (x ^^^ 2 ^ k) := by
          rw [List.getElem?_take, if_pos hA, hfj]
        have hR : hdr[j]? = some x := by
          have htk : (hdr ++ ct ++ tag).take 29 = hdr := by
            rw [List.append_assoc]
            exact List.take_left' hhl
          rw [← htk, heq, List.getElem?_take, if_pos hA, hbj]
        rw [ha2, hR] at hL
        exact hne (Option.some.inj hL).symm
      · rcases lt_or_ge j (29 + data.length) with hB | hB
        · have hL : ((w.drop 29).take (w.length - 29 - 16))[j - 29]?
              = some (x ^^^ 2 ^ k) := by
            rw [List.getElem?_take, if_pos (by rw [hw, hflen]; omega),
              List.getElem?_drop, show 29 + (j - 29) = j by omega, hfj]
          have hR : ct[j - 29]? = some x := by
            have hdk : (hdr ++ ct ++ tag).drop 29 = ct ++ tag := by
              rw [List.append_assoc]
              exact List.drop_left' hhl
            have hmid : ct[j - 29]? = (ct ++ tag)[j - 29]? :=
              (List.getElem?_append_left (by omega)).symm
            rw [hmid, ← hdk, heq, List.getElem?_drop,
              show 29 + (j - 29) = j by omega, hbj]
          rw [hc2, hR] at hL
          exact hne (Option.some.inj hL).symm
        · have hL : (w.drop (w.length - 16))[j - (29 + data.length)]?
              = some (x ^^^ 2 ^ k) := by
            rw [List.getElem?_drop, hw, hflen,
              show data.length + 45 - 16 + (j - (29 + data.length)) = j by omega, hfj]
          have hR : tag[j - (29 + data.length)]? = some x := by
            have hdk : (hdr ++ ct ++ tag).drop (29 + data.length) = tag := by
              have hn : (hdr ++ ct).length = 29 + data.length := by
                simp only [List.length_append, hhl, hctl]
              exact List.drop_left' hn
            rw [← hdk, heq, List.getElem?_drop,
              show 29 + data.length + (j - (29 + data.length)) = j by omega, hbj]
          rw [ht2, hR] at hL
          exact hne (Option.some.inj hL).symm
    rw [hdecnone]

/-- The exact-match scheme `S7` satisfies the ideal tamper-evidence
contract at its canonical encryption: it opens nothing but the quadruple
produced by sealing `dataC` under `headerC`. -/
theorem S7_tamper : ∀ n2 a2 c2 t2,
    ¬(n2 = nonceC ∧ a2 = VERSION :: (be32 7 ++ nonceC) ∧ c2 = dataC ∧ t2 = tagC) →
    S7.dec brankaC.key n2 a2 c2 t2 = none := by
  intro n2 a2 c2 t2 h
  show (if keyC = keyC ∧ n2 = nonceC ∧ a2 = headerC ∧ c2 = dataC ∧ t2 = tagC
    then some dataC else none) = none
  rw [if_neg]
  rintro ⟨-, h1, h2, h3, h4⟩
  exact h ⟨h1, h2, h3, h4⟩

/-- C7 witness: flipping bit 0 of byte 1 (the first timestamp byte) of a
valid token's blob and re-encoding makes decode fail with `InvalidData`. -/
theorem tamper_flip_witness :
    Branka.decode_bytes S7 brankaC 7
      (base62encodeStr ((Branka.encodeBlob S7 brankaC 7 nonceC dataC).take 1
        ++ (0 ^^^ 2 ^ 0) :: (Branka.encodeBlob S7 brankaC 7 nonceC dataC).drop 2))
      = Except.error BrankaError.InvalidData :=
  (tamper_flip S7 brankaC 7 7 nonceC dataC dataC tagC
    ((Branka.encodeBlob S7 brankaC 7 nonceC dataC).take 1)
    ((Branka.encodeBlob S7 brankaC 7 nonceC dataC).drop 2) 0 1 0
    (by decide) (by decide) (by decide) (by decide) (by decide) (by decide)
    (by decide) S7_tamper (by decide) (by decide) (by decide)).2 (by decide)

/-- C7 counterexample to the claim as stated: the token is valid (decode
returns the payload), yet flipping bit 0 of byte 0 — the version byte — of
its binary form and re-encoding makes decode fail with `InvalidVersion`,
not with `InvalidData` (AuthenticationFailed). -/
theorem tamper_flip_version_byte :
    Branka.decode_bytes S7 brankaC 7 (Branka.encode_bytes S7 brankaC 7 nonceC dataC)
      = Except.ok dataC
    ∧ Branka.decode_bytes S7 brankaC 7
      (base62encodeStr ((VERSION ^^^ 1)
        :: (Branka.encodeBlob S7 brankaC 7 nonceC dataC).drop 1))
      = Except.error BrankaError.InvalidVersion
    ∧ Branka.decode_bytes S7 brankaC 7
      (base62encodeStr ((VERSION ^^^ 1)
        :: (Branka.encodeBlob S7 brankaC 7 nonceC dataC).drop 1))
      ≠ Except.error BrankaError.InvalidData := by
  refine ⟨by decide, by decide, by decide⟩
